import Mathlib

/-!
# EdgeAPI message task queue (internal/db/models/message_task_dao.go)

A shallow embedding of `MessageTaskDAO`: the table `edgeMessageTasks` is a list of rows
with an auto-increment counter, the query builder calls of the DAO are read as the SQL
statements they build, and every DAO method is a pure function on the table.
-/

namespace EdgeAPI

/-! ## Constants -/

/-- Go: `type MessageTaskStatus = int`. -/
abbrev MessageTaskStatus := Int

/-- Go: `MessageTaskStateEnabled = 1`. -/
def MessageTaskStateEnabled : Int := 1

/-- Go: `MessageTaskStateDisabled = 0`. -/
def MessageTaskStateDisabled : Int := 0

/-- Go: `MessageTaskStatusNone = 0` (the spec's Pending). -/
def MessageTaskStatusNone : MessageTaskStatus := 0

/-- Go: `MessageTaskStatusSending = 1` (the spec's InProgress). -/
def MessageTaskStatusSending : MessageTaskStatus := 1

/-- Go: `MessageTaskStatusSuccess = 2` (the spec's Succeeded). -/
def MessageTaskStatusSuccess : MessageTaskStatus := 2

/-- Go: `MessageTaskStatusFailed = 3` (the spec's Failed). -/
def MessageTaskStatusFailed : MessageTaskStatus := 3

/-! ## Data model -/

/-- Modelled from the spec: the row type `MessageTask` of table `edgeMessageTasks`
(its declaration, message_task_model.go, is not among the sources). The fields are the
ones the DAO assigns, under the names the DAO uses: `State` is the spec's visibility,
`SentAt` its completedAt, `IsPrimary` its isPriority. `Result` is the byte payload. -/
structure MessageTask where
  Id : Int
  RecipientId : Int
  InstanceId : Int
  User : String
  Subject : String
  Body : String
  IsPrimary : Bool
  Status : MessageTaskStatus
  SentAt : Int
  State : Int
  Result : List Nat
deriving DecidableEq, Repr

/-- Modelled from the spec: the operator `MessageTaskOperator` returned by
`NewMessageTaskOperator` (declared in message_task_model.go, not among the sources):
one nil-able slot per column; a slot left nil is not written by `Save`. -/
structure MessageTaskOperator where
  Id : Option Int
  RecipientId : Option Int
  InstanceId : Option Int
  User : Option String
  Subject : Option String
  Body : Option String
  IsPrimary : Option Bool
  Status : Option MessageTaskStatus
  SentAt : Option Int
  State : Option Int
  Result : Option (List Nat)
deriving DecidableEq, Repr

/-- Go: `NewMessageTaskOperator()`: every slot nil. -/
def NewMessageTaskOperator : MessageTaskOperator :=
  ⟨none, none, none, none, none, none, none, none, none, none, none⟩

/-- The table behind the DAO: its rows in insertion order, the next auto-increment
primary key, and the error every statement meets when the storage is failing
(`none`: the storage works). -/
structure DB where
  rows : List MessageTask
  autoIncrement : Int
  fault : Option String
deriving DecidableEq, Repr

/-- Primary-key constraint of the table: no two rows share an `Id`. -/
def DB.uniqueIds (db : DB) : Prop :=
  (db.rows.map MessageTask.Id).Nodup

/-- A table as the DAO builds it: unique positive keys below the auto-increment counter. -/
def DB.WF (db : DB) : Prop :=
  db.uniqueIds ∧ 0 < db.autoIncrement ∧ ∀ t ∈ db.rows, 0 < t.Id ∧ t.Id < db.autoIncrement

/-! ## The storage layer (the statements the query builder issues) -/

/-- The columns an operator writes onto a row: each non-nil slot but the key. -/
def MessageTaskOperator.writeTo (op : MessageTaskOperator) (t : MessageTask) : MessageTask where
  Id := t.Id
  RecipientId := op.RecipientId.getD t.RecipientId
  InstanceId := op.InstanceId.getD t.InstanceId
  User := op.User.getD t.User
  Subject := op.Subject.getD t.Subject
  Body := op.Body.getD t.Body
  IsPrimary := op.IsPrimary.getD t.IsPrimary
  Status := op.Status.getD t.Status
  SentAt := op.SentAt.getD t.SentAt
  State := op.State.getD t.State
  Result := op.Result.getD t.Result

/-- A fresh row with key `id` and every other column at its zero value. -/
def blankRow (id : Int) : MessageTask :=
  ⟨id, 0, 0, "", "", "", false, 0, 0, 0, []⟩

/-- `UPDATE edgeMessageTasks SET state = v WHERE id = pk` (`Query.Pk(pk).Set("state", v).Update()`):
rows whose key is not `pk` are untouched; matching no row is not an error. -/
def updateState (rows : List MessageTask) (pk : Int) (v : Int) : List MessageTask :=
  rows.map fun t => if t.Id = pk then { t with State := v } else t

/-- `dbs.DAO.Save`: with a key in the operator, `UPDATE ... SET <non-nil slots> WHERE id = key`;
without one, `INSERT` of a row keyed by the auto-increment counter. Returns the new table,
the key, and the error. -/
def Save (db : DB) (op : MessageTaskOperator) : DB × Int × Option String :=
  match db.fault with
  | some e => (db, 0, some e)
  | none =>
    match op.Id with
    | some pk =>
      ({ db with rows := db.rows.map fun t => if t.Id = pk then op.writeTo t else t }, pk, none)
    | none =>
      ({ db with
          rows := db.rows ++ [op.writeTo (blankRow db.autoIncrement)],
          autoIncrement := db.autoIncrement + 1 },
        db.autoIncrement, none)

/-- `ORDER BY isPrimary DESC, id ASC` (`Desc("isPrimary").AscPk()`): `a` may stand before `b`. -/
def orderBefore (a b : MessageTask) : Prop :=
  (a.IsPrimary = true ∧ b.IsPrimary = false) ∨ (a.IsPrimary = b.IsPrimary ∧ a.Id ≤ b.Id)

instance orderBefore_decidable : DecidableRel orderBefore := fun a b => by
  unfold orderBefore
  exact inferInstance

/-- `WHERE state = 1 AND status = 0` (`State(MessageTaskStateEnabled).Attr("status", MessageTaskStatusNone)`). -/
def eligible (t : MessageTask) : Bool :=
  decide (t.State = MessageTaskStateEnabled) && decide (t.Status = MessageTaskStatusNone)

/-! ## The DAO methods -/

/-- Go: `EnableMessageTask(tx, id)`. -/
def EnableMessageTask (db : DB) (id : Int) : DB × Option String :=
  match db.fault with
  | some e => (db, some e)
  | none => ({ db with rows := updateState db.rows id MessageTaskStateEnabled }, none)

/-- Go: `DisableMessageTask(tx, id)`. -/
def DisableMessageTask (db : DB) (id : Int) : DB × Option String :=
  match db.fault with
  | some e => (db, some e)
  | none => ({ db with rows := updateState db.rows id MessageTaskStateDisabled }, none)

/-- Go: `FindEnabledMessageTask(tx, id)`: `WHERE id = ? AND state = 1`, first row. -/
def FindEnabledMessageTask (db : DB) (id : Int) : Option MessageTask × Option String :=
  match db.fault with
  | some e => (none, some e)
  | none =>
    (db.rows.find? fun t => decide (t.Id = id) && decide (t.State = MessageTaskStateEnabled), none)

/-- Go: `CreateMessageTask(tx, recipientId, instanceId, user, subject, body, isPrimary)`. -/
def CreateMessageTask (db : DB) (recipientId instanceId : Int) (user subject body : String)
    (isPrimary : Bool) : DB × Int × Option String :=
  let op := NewMessageTaskOperator
  let op := { op with RecipientId := some recipientId }
  let op := { op with InstanceId := some instanceId }
  let op := { op with User := some user }
  let op := { op with Subject := some subject }
  let op := { op with Body := some body }
  let op := { op with IsPrimary := some isPrimary }
  let op := { op with Status := some MessageTaskStatusNone }
  let op := { op with State := some MessageTaskStateEnabled }
  Save db op

/-- Go: `FindSendingMessageTasks(tx, size)`. -/
def FindSendingMessageTasks (db : DB) (size : Int) : List MessageTask × Option String :=
  if size ≤ 0 then ([], none)
  else
    match db.fault with
    | some e => ([], some e)
    | none => ((((db.rows.filter eligible).insertionSort orderBefore).take size.toNat), none)

/-- Go: `UpdateMessageTaskStatus(tx, taskId, status, result)`; `now` is `time.Now().Unix()`. -/
def UpdateMessageTaskStatus (db : DB) (now : Int) (taskId : Int) (status : MessageTaskStatus)
    (result : List Nat) : DB × Option String :=
  if taskId ≤ 0 then (db, some "invalid taskId")
  else
    let op := NewMessageTaskOperator
    let op := { op with Id := some taskId }
    let op := { op with Status := some status }
    let op := { op with SentAt := some now }
    let op := if result.length > 0 then { op with Result := some result } else op
    let r := Save db op
    (r.1, r.2.2)

/-! ## Sequences of queue operations -/

/-- One call of the queue interface. -/
inductive Op where
  | create (recipientId instanceId : Int) (user subject body : String) (isPrimary : Bool)
  | enable (id : Int)
  | disable (id : Int)
  | listPending (size : Int)
  | recordStatus (now : Int) (taskId : Int) (status : MessageTaskStatus) (result : List Nat)
deriving DecidableEq, Repr

/-- The table after one call. -/
def step (db : DB) : Op → DB
  | .create r i u s b p => (CreateMessageTask db r i u s b p).1
  | .enable id => (EnableMessageTask db id).1
  | .disable id => (DisableMessageTask db id).1
  | .listPending _ => db
  | .recordStatus now id st res => (UpdateMessageTaskStatus db now id st res).1

/-- The table after a sequence of calls. -/
def run (db : DB) (ops : List Op) : DB :=
  ops.foldl step db

/-- The row a point lookup by key finds. -/
def findTask (db : DB) (id : Int) : Option MessageTask :=
  db.rows.find? fun t => decide (t.Id = id)

/-- The status stored for a key. -/
def statusOf (db : DB) (id : Int) : Option MessageTaskStatus :=
  (findTask db id).map MessageTask.Status

/-- The empty table. -/
def emptyDB : DB := ⟨[], 1, none⟩

/-! ## Predicates and tables used in the statements -/

/-- The order the claim view promises between an earlier and a later element: the later
one is priority only if the earlier one is, and within one tier the key grows strictly. -/
def strictlyBefore (a b : MessageTask) : Prop :=
  (b.IsPrimary = true → a.IsPrimary = true) ∧ (a.IsPrimary = b.IsPrimary → a.Id < b.Id)

/-- The spec scenario: tasks A (priority), B (normal), C (priority) created in that order. -/
def scenarioDB : DB :=
  run emptyDB [.create 7 8 "u" "s" "b" true, .create 7 8 "u" "s" "b" false,
    .create 7 8 "u" "s" "b" true]

/-- The statement `UpdateMessageTaskStatus` issues for a positive key on a working storage:
`UPDATE ... SET status = ?, sentAt = ? [, result = ?] WHERE id = ?`. -/
def statusWrite (now : Int) (taskId : Int) (status : MessageTaskStatus) (result : List Nat)
    (t : MessageTask) : MessageTask :=
  if t.Id = taskId then
    { t with Status := status, SentAt := now,
             Result := if result.length > 0 then result else t.Result }
  else t

/-- A task soft-claimed with a payload: created, then recorded as Sending with result "x". -/
def claimedDB : DB :=
  run emptyDB [.create 7 8 "u" "s" "b" true, .recordStatus 50 1 MessageTaskStatusSending [120]]

/-- What a visibility write on key `id` with value `v` may do to a row `t`, giving `t'`:
every column but `State` is kept, `State` becomes `v` on the target and is kept elsewhere. -/
def visibilityFrame (id : Int) (v : Int) (t t' : MessageTask) : Prop :=
  t'.Id = t.Id ∧ t'.RecipientId = t.RecipientId ∧ t'.InstanceId = t.InstanceId ∧
    t'.User = t.User ∧ t'.Subject = t.Subject ∧ t'.Body = t.Body ∧
    t'.IsPrimary = t.IsPrimary ∧ t'.Status = t.Status ∧ t'.SentAt = t.SentAt ∧
    t'.Result = t.Result ∧ (t.Id = id → t'.State = v) ∧ (t.Id ≠ id → t' = t)

/-! ## Lemmas on the storage layer -/

instance orderBefore_total : IsTotal MessageTask orderBefore where
  total a b := by
    unfold orderBefore
    cases ha : a.IsPrimary <;> cases hb : b.IsPrimary <;> simp <;> omega

instance orderBefore_trans : IsTrans MessageTask orderBefore where
  trans a b c := by
    unfold orderBefore
    cases ha : a.IsPrimary <;> cases hb : b.IsPrimary <;> cases hc : c.IsPrimary <;> simp <;> omega

theorem eligible_iff (t : MessageTask) :
    eligible t = true ↔ t.State = MessageTaskStateEnabled ∧ t.Status = MessageTaskStatusNone := by
  simp [eligible]

/-- The rows the claim query selects, in its order, before the limit. -/
theorem pending_perm (rows : List MessageTask) :
    ((rows.filter eligible).insertionSort orderBefore).Perm (rows.filter eligible) :=
  List.perm_insertionSort orderBefore _

theorem mem_pending {rows : List MessageTask} {t : MessageTask} :
    t ∈ (rows.filter eligible).insertionSort orderBefore ↔ t ∈ rows ∧ eligible t = true := by
  rw [(pending_perm rows).mem_iff, List.mem_filter]

theorem pending_pairwise {rows : List MessageTask} (h : (rows.map MessageTask.Id).Nodup) :
    ((rows.filter eligible).insertionSort orderBefore).Pairwise strictlyBefore := by
  have hs : ((rows.filter eligible).insertionSort orderBefore).Pairwise orderBefore :=
    List.sorted_insertionSort orderBefore _
  have hn : (((rows.filter eligible).insertionSort orderBefore).map MessageTask.Id).Nodup := by
    have h1 : ((rows.filter eligible).map MessageTask.Id).Nodup :=
      h.sublist ((List.filter_sublist rows).map _)
    exact (((pending_perm rows).map MessageTask.Id).nodup_iff).mpr h1
  have hd : ((rows.filter eligible).insertionSort orderBefore).Pairwise
      (fun a b => a.Id ≠ b.Id) := (List.pairwise_map).mp hn
  refine (hs.and hd).imp ?_
  intro a b hab
  obtain ⟨ho, hne⟩ := hab
  unfold orderBefore at ho
  unfold strictlyBefore
  cases ha : a.IsPrimary <;> cases hb : b.IsPrimary <;> simp [ha, hb] at ho ⊢ <;> omega

theorem pending_nodup {rows : List MessageTask} (h : (rows.map MessageTask.Id).Nodup) :
    ((rows.filter eligible).insertionSort orderBefore).Nodup := by
  have h1 : (rows.filter eligible).Nodup := (List.Nodup.of_map _ h).sublist (List.filter_sublist rows)
  exact ((pending_perm rows).nodup_iff).mpr h1

theorem find_of_ok {db : DB} {size : Int} (hs : 0 < size) (hf : db.fault = none) :
    FindSendingMessageTasks db size =
      ((((db.rows.filter eligible).insertionSort orderBefore).take size.toNat), none) := by
  unfold FindSendingMessageTasks
  rw [if_neg (not_le.mpr hs), hf]

theorem find_sublist (db : DB) (size : Int) :
    (FindSendingMessageTasks db size).1.Sublist
      ((db.rows.filter eligible).insertionSort orderBefore) := by
  unfold FindSendingMessageTasks
  split
  · exact List.nil_sublist _
  · split
    · exact List.nil_sublist _
    · exact List.take_sublist _ _

/-! ## The claim view: `FindSendingMessageTasks` -/

/-- C1: on a table with unique keys, in the sequence `FindSendingMessageTasks` returns
(for any limit) every priority task stands before every non-priority task, and among
tasks of equal priority the identifiers are strictly ascending. -/
theorem findSending_priority_then_id (db : DB) (size : Int) (hu : db.uniqueIds) :
    (FindSendingMessageTasks db size).1.Pairwise strictlyBefore :=
  (pending_pairwise hu).sublist (find_sublist db size)

theorem findSending_priority_then_id_witness :
    scenarioDB.uniqueIds ∧
      (FindSendingMessageTasks scenarioDB 10).1.map MessageTask.Id = [1, 3, 2] ∧
      (FindSendingMessageTasks scenarioDB 10).1.Pairwise strictlyBefore :=
  ⟨by unfold DB.uniqueIds; decide, by decide,
    findSending_priority_then_id scenarioDB 10 (by unfold DB.uniqueIds; decide)⟩

/-- C2: every task `FindSendingMessageTasks` returns is a row of the table whose state is
Enabled and whose status is None (Pending); so a Disabled row is never returned whatever
its status, and a row whose status is not None is never returned whatever its state. -/
theorem findSending_only_enabled_pending (db : DB) (size : Int) :
    (∀ t ∈ (FindSendingMessageTasks db size).1,
        t ∈ db.rows ∧ t.State = MessageTaskStateEnabled ∧ t.Status = MessageTaskStatusNone) ∧
      (∀ t ∈ db.rows, t.State = MessageTaskStateDisabled →
        t ∉ (FindSendingMessageTasks db size).1) ∧
      (∀ t ∈ db.rows, t.Status ≠ MessageTaskStatusNone →
        t ∉ (FindSendingMessageTasks db size).1) := by
  have key : ∀ t ∈ (FindSendingMessageTasks db size).1,
      t ∈ db.rows ∧ t.State = MessageTaskStateEnabled ∧ t.Status = MessageTaskStatusNone := by
    intro t ht
    have h := mem_pending.mp ((find_sublist db size).subset ht)
    exact ⟨h.1, (eligible_iff t).mp h.2⟩
  refine ⟨key, ?_, ?_⟩
  · intro t _ hd hin
    have h := (key t hin).2.1
    rw [hd] at h
    exact absurd h (by decide)
  · intro t _ hs hin
    exact hs (key t hin).2.2

/-- C3: when the storage works, the keys are unique and the limit is positive,
`FindSendingMessageTasks` returns `min limit k` rows, `k` the number of eligible rows,
without duplicates, all of them eligible rows of the table, and every eligible row left
out comes strictly after every returned row in the order priority first, then ascending
identifier (so no priority row is left out while a normal row is returned). -/
theorem findSending_sorted_initial_segment (db : DB) (size : Int) (hs : 0 < size)
    (hf : db.fault = none) (hu : db.uniqueIds) :
    (FindSendingMessageTasks db size).2 = none ∧
      (FindSendingMessageTasks db size).1.length = min size.toNat (db.rows.countP eligible) ∧
      (FindSendingMessageTasks db size).1.Nodup ∧
      (∀ t ∈ (FindSendingMessageTasks db size).1, t ∈ db.rows ∧ eligible t = true) ∧
      (∀ x ∈ db.rows, eligible x = true → x ∉ (FindSendingMessageTasks db size).1 →
        ∀ y ∈ (FindSendingMessageTasks db size).1,
          strictlyBefore y x ∧ (x.IsPrimary = true → y.IsPrimary = true)) := by
  rw [find_of_ok hs hf]
  refine ⟨rfl, ?_, ?_, ?_, ?_⟩
  · simp only [List.length_take, List.length_insertionSort, List.countP_eq_length_filter]
  · exact (pending_nodup hu).sublist (List.take_sublist _ _)
  · intro t ht
    exact mem_pending.mp ((List.take_sublist _ _).subset ht)
  · intro x hx he hnot y hy
    have hmem : x ∈ (db.rows.filter eligible).insertionSort orderBefore :=
      mem_pending.mpr ⟨hx, he⟩
    have hsplit := List.take_append_drop size.toNat
      ((db.rows.filter eligible).insertionSort orderBefore)
    have hxd : x ∈ ((db.rows.filter eligible).insertionSort orderBefore).drop size.toNat := by
      rw [← hsplit, List.mem_append] at hmem
      exact hmem.resolve_left hnot
    have hp := pending_pairwise hu
    rw [← hsplit, List.pairwise_append] at hp
    have h := hp.2.2 y hy x hxd
    exact ⟨h, h.1⟩

theorem findSending_sorted_initial_segment_witness :
    (FindSendingMessageTasks scenarioDB 2).1.map MessageTask.Id = [1, 3] ∧
      (FindSendingMessageTasks scenarioDB 2).1.length = min (2 : Int).toNat
        (scenarioDB.rows.countP eligible) :=
  ⟨by decide,
    (findSending_sorted_initial_segment scenarioDB 2 (by decide) rfl
      (by unfold DB.uniqueIds; decide)).2.1⟩

/-- C9: for every limit at most zero `FindSendingMessageTasks` returns the empty sequence
and no error whatever the table holds and whether or not the storage is failing: the
result does not depend on the table. -/
theorem findSending_nonpositive_limit (db : DB) (size : Int) (hs : size ≤ 0) :
    FindSendingMessageTasks db size = ([], none) := by
  unfold FindSendingMessageTasks
  rw [if_pos hs]

theorem findSending_nonpositive_limit_witness :
    FindSendingMessageTasks ⟨scenarioDB.rows, 4, some "connection refused"⟩ (-1) = ([], none) ∧
      (FindSendingMessageTasks ⟨scenarioDB.rows, 4, some "connection refused"⟩ 1).2
        = some "connection refused" :=
  ⟨findSending_nonpositive_limit _ (-1) (by decide), by decide⟩

/-! ## Lemmas on the writes -/

theorem find_map_keepId (g : MessageTask → MessageTask) (hg : ∀ t, (g t).Id = t.Id)
    (rows : List MessageTask) (id : Int) :
    (rows.map g).find? (fun t => decide (t.Id = id)) =
      (rows.find? fun t => decide (t.Id = id)).map g := by
  induction rows with
  | nil => rfl
  | cons a l ih =>
    by_cases h : a.Id = id
    · simp [List.find?, hg, h]
    · simp [List.find?, hg, h, ih]

theorem findTask_id {db : DB} {id : Int} {t : MessageTask} (h : findTask db id = some t) :
    t.Id = id := by
  have := List.find?_some h
  simpa using this

theorem findTask_mem {db : DB} {id : Int} {t : MessageTask} (h : findTask db id = some t) :
    t ∈ db.rows :=
  List.mem_of_find?_eq_some h

theorem statusWrite_id (now taskId : Int) (status : MessageTaskStatus) (result : List Nat)
    (t : MessageTask) : (statusWrite now taskId status result t).Id = t.Id := by
  unfold statusWrite
  split <;> rfl

theorem update_of_ok {db : DB} (now : Int) {taskId : Int} (status : MessageTaskStatus)
    (result : List Nat) (hid : 0 < taskId) (hf : db.fault = none) :
    UpdateMessageTaskStatus db now taskId status result =
      ({ db with rows := db.rows.map (statusWrite now taskId status result) }, none) := by
  unfold UpdateMessageTaskStatus Save
  rw [if_neg (not_le.mpr hid)]
  by_cases hr : result.length > 0
  · simp only [hr, if_true, hf, NewMessageTaskOperator]
    congr 2
    apply List.map_congr_left
    intro t _
    unfold statusWrite MessageTaskOperator.writeTo
    split <;> simp [hr]
  · simp only [hr, if_false, hf, NewMessageTaskOperator]
    congr 2
    apply List.map_congr_left
    intro t _
    unfold statusWrite MessageTaskOperator.writeTo
    split <;> simp [hr]

theorem update_of_fault {db : DB} (now taskId : Int) (status : MessageTaskStatus)
    (result : List Nat) {e : String} (hf : db.fault = some e) :
    (UpdateMessageTaskStatus db now taskId status result).1 = db := by
  unfold UpdateMessageTaskStatus Save
  split
  · rfl
  · simp only [hf]

/-! ## The status recorder: `UpdateMessageTaskStatus` -/

/-- C4: for every key at most zero, every status and every payload,
`UpdateMessageTaskStatus` returns the error "invalid taskId" and the table it leaves is
the table it was given. -/
theorem updateStatus_rejects_nonpositive_id (db : DB) (now taskId : Int)
    (status : MessageTaskStatus) (result : List Nat) (hid : taskId ≤ 0) :
    UpdateMessageTaskStatus db now taskId status result = (db, some "invalid taskId") := by
  unfold UpdateMessageTaskStatus
  rw [if_pos hid]

theorem updateStatus_rejects_nonpositive_id_witness :
    UpdateMessageTaskStatus scenarioDB 100 0 MessageTaskStatusFailed [120]
      = (scenarioDB, some "invalid taskId") :=
  updateStatus_rejects_nonpositive_id scenarioDB 100 0 MessageTaskStatusFailed [120] (by decide)

theorem update_ok_fault {db : DB} {now taskId : Int} {status : MessageTaskStatus}
    {result : List Nat} (hid : 0 < taskId)
    (hok : (UpdateMessageTaskStatus db now taskId status result).2 = none) :
    db.fault = none := by
  cases hf : db.fault with
  | none => rfl
  | some e =>
    unfold UpdateMessageTaskStatus Save at hok
    rw [if_neg (not_le.mpr hid)] at hok
    simp [hf] at hok

theorem findTask_update {db : DB} (now : Int) {taskId : Int} (status : MessageTaskStatus)
    (result : List Nat) (hid : 0 < taskId) (hf : db.fault = none) (id : Int) :
    findTask (UpdateMessageTaskStatus db now taskId status result).1 id =
      (findTask db id).map (statusWrite now taskId status result) := by
  rw [update_of_ok now status result hid hf]
  exact find_map_keepId _ (statusWrite_id now taskId status result) db.rows id

/-- C5 (amended): for a stored task with a positive key, after
`UpdateMessageTaskStatus(id, MessageTaskStatusSuccess, result)` returns no error the
stored task has status Success and sentAt `now`; its result is the supplied payload when
that payload is non-empty and is the result it had before when the payload is empty; and
no later `FindSendingMessageTasks`, whatever the limit, returns a task with that key. -/
theorem updateStatus_success_recorded (db : DB) (now id : Int) (result : List Nat)
    (t : MessageTask) (hid : 0 < id) (ht : findTask db id = some t)
    (hok : (UpdateMessageTaskStatus db now id MessageTaskStatusSuccess result).2 = none) :
    findTask (UpdateMessageTaskStatus db now id MessageTaskStatusSuccess result).1 id =
        some { t with Status := MessageTaskStatusSuccess, SentAt := now,
                      Result := if result = [] then t.Result else result } ∧
      ∀ size, ∀ x ∈ (FindSendingMessageTasks
          (UpdateMessageTaskStatus db now id MessageTaskStatusSuccess result).1 size).1,
        x.Id ≠ id := by
  have hf := update_ok_fault hid hok
  constructor
  · rw [findTask_update now _ result hid hf, ht]
    simp only [Option.map_some', statusWrite, findTask_id ht, if_true]
    cases result <;> simp
  · intro size x hx hxid
    have hmem := mem_pending.mp ((find_sublist _ size).subset hx)
    rw [update_of_ok now _ result hid hf] at hmem
    obtain ⟨hrow, hel⟩ := hmem
    obtain ⟨t0, _, rfl⟩ := List.mem_map.mp hrow
    have h0 : t0.Id = id := by rw [← statusWrite_id now id MessageTaskStatusSuccess result t0, hxid]
    have hst := ((eligible_iff _).mp hel).2
    simp [statusWrite, h0, MessageTaskStatusSuccess, MessageTaskStatusNone] at hst

/-! ## The task store: `CreateMessageTask` -/

theorem create_of_ok {db : DB} (r i : Int) (u s b : String) (p : Bool) (hf : db.fault = none) :
    CreateMessageTask db r i u s b p =
      ({ db with
          rows := db.rows ++ [⟨db.autoIncrement, r, i, u, s, b, p, MessageTaskStatusNone, 0,
            MessageTaskStateEnabled, []⟩],
          autoIncrement := db.autoIncrement + 1 }, db.autoIncrement, none) := by
  unfold CreateMessageTask Save
  simp only [hf, NewMessageTaskOperator]
  rfl

theorem create_of_fault {db : DB} (r i : Int) (u s b : String) (p : Bool) {e : String}
    (hf : db.fault = some e) : CreateMessageTask db r i u s b p = (db, 0, some e) := by
  unfold CreateMessageTask Save
  simp only [hf]

theorem create_keeps_WF {db : DB} (r i : Int) (u s b : String) (p : Bool) (h : db.WF) :
    (CreateMessageTask db r i u s b p).1.WF := by
  cases hf : db.fault with
  | some e => rw [create_of_fault r i u s b p hf]; exact h
  | none =>
    rw [create_of_ok r i u s b p hf]
    obtain ⟨hu, hpos, hb⟩ := h
    refine ⟨?_, by simp only; omega, ?_⟩
    · unfold DB.uniqueIds at hu ⊢
      simp only [List.map_append, List.map_cons, List.map_nil]
      rw [List.nodup_append]
      refine ⟨hu, List.nodup_singleton _, ?_⟩
      intro a ha ha'
      obtain ⟨t, ht, rfl⟩ := List.mem_map.mp ha
      rw [List.mem_singleton] at ha'
      have := (hb t ht).2
      omega
    · intro t ht
      simp only [List.mem_append, List.mem_singleton] at ht
      rcases ht with ht | rfl
      · have := hb t ht
        exact ⟨this.1, by simp only; omega⟩
      · exact ⟨hpos, by simp only; omega⟩

/-- C10: when `CreateMessageTask` returns no error, the table it leaves is the old rows,
unchanged and in place, followed by exactly one new row; that row carries the returned
identifier (the auto-increment key), the six arguments, status None (Pending) and state
Enabled; it passes the filter of `FindSendingMessageTasks` and is returned by it for every
limit that covers the eligible rows; and on a well-formed table the identifier is one no
stored row has, and the table stays well-formed. -/
theorem create_adds_one_pending_enabled (db : DB) (r i : Int) (u s b : String) (p : Bool)
    (db' : DB) (id : Int) (h : CreateMessageTask db r i u s b p = (db', id, none)) :
    ∃ t : MessageTask, db'.rows = db.rows ++ [t] ∧ t.Id = id ∧ id = db.autoIncrement ∧
      t.RecipientId = r ∧ t.InstanceId = i ∧ t.User = u ∧ t.Subject = s ∧ t.Body = b ∧
      t.IsPrimary = p ∧ t.Status = MessageTaskStatusNone ∧ t.State = MessageTaskStateEnabled ∧
      eligible t = true ∧
      (∀ size : Int, (db'.rows.countP eligible : Int) ≤ size →
        t ∈ (FindSendingMessageTasks db' size).1) ∧
      (db.WF → (∀ x ∈ db.rows, x.Id ≠ id) ∧ db'.WF) := by
  have hf : db.fault = none := by
    cases hf : db.fault with
    | none => rfl
    | some e =>
      rw [create_of_fault r i u s b p hf] at h
      simp at h
  have hwf : db.WF → db'.WF := by
    intro hw
    have := create_keeps_WF r i u s b p hw
    rwa [h] at this
  rw [create_of_ok r i u s b p hf] at h
  simp only [Prod.mk.injEq, and_true] at h
  obtain ⟨hdb, hidq⟩ := h
  subst hidq
  refine ⟨⟨db.autoIncrement, r, i, u, s, b, p, MessageTaskStatusNone, 0,
    MessageTaskStateEnabled, []⟩, by rw [← hdb], rfl, rfl, rfl, rfl, rfl, rfl, rfl, rfl, rfl,
    rfl, by simp [eligible], ?_, ?_⟩
  · intro size hsz
    have hel : eligible ⟨db.autoIncrement, r, i, u, s, b, p, MessageTaskStatusNone, 0,
        MessageTaskStateEnabled, []⟩ = true := by simp [eligible]
    have hmemrows : (⟨db.autoIncrement, r, i, u, s, b, p, MessageTaskStatusNone, 0,
        MessageTaskStateEnabled, []⟩ : MessageTask) ∈ db'.rows := by
      rw [← hdb]; simp
    have hpos : 0 < db'.rows.countP eligible := List.countP_pos_iff.mpr ⟨_, hmemrows, hel⟩
    have hs : 0 < size := by omega
    have hf' : db'.fault = none := by rw [← hdb]; exact hf
    rw [find_of_ok hs hf', List.take_of_length_le]
    · exact mem_pending.mpr ⟨hmemrows, hel⟩
    · rw [List.length_insertionSort, ← List.countP_eq_length_filter]
      omega
  · intro hw
    refine ⟨?_, hwf hw⟩
    intro x hx hxe
    have := (hw.2.2 x hx).2
    omega

theorem create_adds_one_pending_enabled_witness :
    ∃ t : MessageTask, (CreateMessageTask emptyDB 7 8 "u" "s" "b" true).1.rows
        = emptyDB.rows ++ [t] ∧ t.Id = 1 ∧ (1 : Int) = emptyDB.autoIncrement ∧
      t.RecipientId = 7 ∧ t.InstanceId = 8 ∧ t.User = "u" ∧ t.Subject = "s" ∧ t.Body = "b" ∧
      t.IsPrimary = true ∧ t.Status = MessageTaskStatusNone ∧
      t.State = MessageTaskStateEnabled ∧ eligible t = true ∧
      (∀ size : Int,
        (((CreateMessageTask emptyDB 7 8 "u" "s" "b" true).1.rows.countP eligible : Nat) : Int)
          ≤ size →
        t ∈ (FindSendingMessageTasks (CreateMessageTask emptyDB 7 8 "u" "s" "b" true).1 size).1) ∧
      (emptyDB.WF → (∀ x ∈ emptyDB.rows, x.Id ≠ 1) ∧
        (CreateMessageTask emptyDB 7 8 "u" "s" "b" true).1.WF) :=
  create_adds_one_pending_enabled emptyDB 7 8 "u" "s" "b" true
    (CreateMessageTask emptyDB 7 8 "u" "s" "b" true).1 1 rfl

theorem updateStatus_success_recorded_witness :
    findTask (UpdateMessageTaskStatus scenarioDB 60 1 MessageTaskStatusSuccess [79, 75]).1 1 =
        some ⟨1, 7, 8, "u", "s", "b", true, MessageTaskStatusSuccess, 60,
          MessageTaskStateEnabled, [79, 75]⟩ ∧
      ∀ size, ∀ x ∈ (FindSendingMessageTasks
          (UpdateMessageTaskStatus scenarioDB 60 1 MessageTaskStatusSuccess [79, 75]).1 size).1,
        x.Id ≠ 1 :=
  updateStatus_success_recorded scenarioDB 60 1 [79, 75]
    ⟨1, 7, 8, "u", "s", "b", true, MessageTaskStatusNone, 0, MessageTaskStateEnabled, []⟩
    (by decide) (by decide) (by decide)

/-- C5 (as stated, refuted): task 1 exists with result "x"; `UpdateMessageTaskStatus(1,
MessageTaskStatusSuccess, "")` succeeds, and the stored result is still "x", not the
supplied empty payload. -/
theorem updateStatus_empty_payload_keeps_result :
    (findTask claimedDB 1).map MessageTask.Result = some [120] ∧
      (UpdateMessageTaskStatus claimedDB 60 1 MessageTaskStatusSuccess []).2 = none ∧
      (findTask (UpdateMessageTaskStatus claimedDB 60 1 MessageTaskStatusSuccess []).1 1).map
        MessageTask.Status = some MessageTaskStatusSuccess ∧
      (findTask (UpdateMessageTaskStatus claimedDB 60 1 MessageTaskStatusSuccess []).1 1).map
        MessageTask.Result = some [120] ∧
      (findTask (UpdateMessageTaskStatus claimedDB 60 1 MessageTaskStatusSuccess []).1 1).map
        MessageTask.Result ≠ some [] := by
  decide

/-! ## The visibility gate: `EnableMessageTask`, `DisableMessageTask` -/

theorem updateState_idem (rows : List MessageTask) (id v : Int) :
    updateState (updateState rows id v) id v = updateState rows id v := by
  unfold updateState
  rw [List.map_map]
  apply List.map_congr_left
  intro t _
  by_cases h : t.Id = id <;> simp [h]

theorem updateState_frame (rows : List MessageTask) (id v : Int) :
    List.Forall₂ (visibilityFrame id v) rows (updateState rows id v) := by
  unfold updateState
  rw [List.forall₂_map_right_iff, List.forall₂_same]
  intro t _
  by_cases h : t.Id = id <;> simp [visibilityFrame, h]

theorem updateState_absent {rows : List MessageTask} {id : Int} (v : Int)
    (h : ∀ t ∈ rows, t.Id ≠ id) : updateState rows id v = rows := by
  unfold updateState
  conv_rhs => rw [← List.map_id rows]
  apply List.map_congr_left
  intro t ht
  simp [h t ht]

/-- C7: on a working storage, for every key, `EnableMessageTask` and `DisableMessageTask`
succeed; applied a second time they succeed again and leave the table as the first call
left it; and the table after one call differs from the table before only in the `State`
of the rows with that key, which is Enabled (resp. Disabled): status, sentAt, result and
all other columns of those rows, every other row, and the auto-increment counter are
unchanged. -/
theorem enable_disable_idempotent_frame (db : DB) (id : Int) (hf : db.fault = none) :
    (EnableMessageTask db id).2 = none ∧
      EnableMessageTask (EnableMessageTask db id).1 id = ((EnableMessageTask db id).1, none) ∧
      (EnableMessageTask db id).1.autoIncrement = db.autoIncrement ∧
      List.Forall₂ (visibilityFrame id MessageTaskStateEnabled) db.rows
        (EnableMessageTask db id).1.rows ∧
      (DisableMessageTask db id).2 = none ∧
      DisableMessageTask (DisableMessageTask db id).1 id = ((DisableMessageTask db id).1, none) ∧
      (DisableMessageTask db id).1.autoIncrement = db.autoIncrement ∧
      List.Forall₂ (visibilityFrame id MessageTaskStateDisabled) db.rows
        (DisableMessageTask db id).1.rows := by
  unfold EnableMessageTask DisableMessageTask
  simp only [hf, updateState_idem, true_and]
  exact ⟨updateState_frame _ _ _, updateState_frame _ _ _⟩

theorem enable_disable_idempotent_frame_witness :
    DisableMessageTask (DisableMessageTask scenarioDB 2).1 2
        = ((DisableMessageTask scenarioDB 2).1, none) ∧
      (FindSendingMessageTasks (DisableMessageTask scenarioDB 2).1 10).1.map MessageTask.Id
        = [1, 3] :=
  ⟨(enable_disable_idempotent_frame scenarioDB 2 rfl).2.2.2.2.2.1, by decide⟩

/-- C8 (amended): for a key that names no row, `EnableMessageTask` and
`DisableMessageTask` leave the table unchanged and return whatever the storage returns:
no error on a working storage (a missing key is not reported), the storage error on a
failing one. -/
theorem enable_disable_absent_id (db : DB) (id : Int) (h : ∀ t ∈ db.rows, t.Id ≠ id) :
    EnableMessageTask db id = (db, db.fault) ∧ DisableMessageTask db id = (db, db.fault) := by
  unfold EnableMessageTask DisableMessageTask
  cases hf : db.fault with
  | some e => exact ⟨rfl, rfl⟩
  | none =>
    simp only [updateState_absent _ h]
    cases db
    simp only at hf
    subst hf
    exact ⟨rfl, rfl⟩

theorem enable_disable_absent_id_witness :
    EnableMessageTask scenarioDB 9 = (scenarioDB, scenarioDB.fault) ∧
      DisableMessageTask scenarioDB 9 = (scenarioDB, scenarioDB.fault) :=
  enable_disable_absent_id scenarioDB 9 (by decide)

/-- C8 (as stated, refuted): key 9 names no row of the scenario table, and both
`EnableMessageTask` and `DisableMessageTask` return no error for it. -/
theorem enable_disable_absent_id_succeeds :
    (∀ t ∈ scenarioDB.rows, t.Id ≠ 9) ∧ (EnableMessageTask scenarioDB 9).2 = none ∧
      (DisableMessageTask scenarioDB 9).2 = none := by
  decide

/-! ## Status across sequences of operations -/

theorem statusOf_eq_some {db : DB} {id : Int} {s : MessageTaskStatus} :
    statusOf db id = some s ↔ ∃ t, findTask db id = some t ∧ t.Status = s := by
  unfold statusOf
  simp [Option.map_eq_some']

theorem findTask_updateState (rows : List MessageTask) (a : Int) (f : Option String)
    (pk v id : Int) :
    findTask ⟨updateState rows pk v, a, f⟩ id =
      (findTask ⟨rows, a, f⟩ id).map fun t => if t.Id = pk then { t with State := v } else t := by
  unfold findTask updateState
  apply find_map_keepId
  intro t
  split <;> rfl

theorem statusOf_step {db : DB} {id : Int} {s : MessageTaskStatus} (op : Op)
    (h : statusOf db id = some s) :
    ∃ s1, statusOf (step db op) id = some s1 ∧
      (s1 = s ∨ ∃ now res, op = Op.recordStatus now id s1 res) := by
  obtain ⟨t, ht, hts⟩ := statusOf_eq_some.mp h
  cases op with
  | create r i u sb b p =>
    refine ⟨s, ?_, Or.inl rfl⟩
    cases hf : db.fault with
    | some e => simp only [step, create_of_fault r i u sb b p hf]; exact h
    | none =>
      simp only [step, create_of_ok r i u sb b p hf]
      apply statusOf_eq_some.mpr
      refine ⟨t, ?_, hts⟩
      unfold findTask at ht ⊢
      simp only [List.find?_append, ht]
      rfl
  | enable pk =>
    refine ⟨s, ?_, Or.inl rfl⟩
    cases hf : db.fault with
    | some e => simp only [step, EnableMessageTask, hf]; exact h
    | none =>
      simp only [step, EnableMessageTask, hf]
      apply statusOf_eq_some.mpr
      have ht' : findTask ⟨db.rows, db.autoIncrement, none⟩ id = some t := ht
      rw [findTask_updateState, ht']
      refine ⟨_, rfl, ?_⟩
      show (if t.Id = pk then _ else t).Status = s
      split <;> exact hts
  | disable pk =>
    refine ⟨s, ?_, Or.inl rfl⟩
    cases hf : db.fault with
    | some e => simp only [step, DisableMessageTask, hf]; exact h
    | none =>
      simp only [step, DisableMessageTask, hf]
      apply statusOf_eq_some.mpr
      have ht' : findTask ⟨db.rows, db.autoIncrement, none⟩ id = some t := ht
      rw [findTask_updateState, ht']
      refine ⟨_, rfl, ?_⟩
      show (if t.Id = pk then _ else t).Status = s
      split <;> exact hts
  | listPending size => exact ⟨s, h, Or.inl rfl⟩
  | recordStatus now tid st res =>
    by_cases hid : tid ≤ 0
    · refine ⟨s, ?_, Or.inl rfl⟩
      simp only [step, UpdateMessageTaskStatus, if_pos hid]
      exact h
    · cases hf : db.fault with
      | some e =>
        refine ⟨s, ?_, Or.inl rfl⟩
        simp only [step, update_of_fault now tid st res hf]
        exact h
      | none =>
        have hw := findTask_update now st res (not_le.mp hid) hf id
        rw [ht] at hw
        by_cases heq : tid = id
        · subst heq
          refine ⟨st, ?_, Or.inr ⟨now, res, rfl⟩⟩
          apply statusOf_eq_some.mpr
          refine ⟨_, hw, ?_⟩
          simp [statusWrite, findTask_id ht]
        · refine ⟨s, ?_, Or.inl rfl⟩
          apply statusOf_eq_some.mpr
          refine ⟨_, hw, ?_⟩
          have hne : ¬ t.Id = tid := by rw [findTask_id ht]; exact fun h => heq h.symm
          simp [statusWrite, hne, hts]

theorem statusOf_run {id : Int} (ops : List Op) :
    ∀ {db : DB} {s : MessageTaskStatus}, statusOf db id = some s →
      ∃ s1, statusOf (run db ops) id = some s1 ∧
        (s1 = s ∨ ∃ now res, Op.recordStatus now id s1 res ∈ ops) := by
  induction ops with
  | nil => intro db s h; exact ⟨s, h, Or.inl rfl⟩
  | cons op ops ih =>
    intro db s h
    obtain ⟨s1, h1, hc1⟩ := statusOf_step op h
    obtain ⟨s2, h2, hc2⟩ := ih h1
    refine ⟨s2, h2, ?_⟩
    rcases hc2 with rfl | ⟨now, res, hmem⟩
    · rcases hc1 with rfl | ⟨now, res, rfl⟩
      · exact Or.inl rfl
      · exact Or.inr ⟨now, res, List.mem_cons_self _ _⟩
    · exact Or.inr ⟨now, res, List.mem_cons_of_mem _ hmem⟩

/-- C6 (amended): across every sequence of queue operations the status of a stored task
is either the status it had or a status some `recordStatus` call of the sequence supplied
for its key: create, enable, disable, listPending and `recordStatus` on other keys never
change it. Hence in a sequence whose `recordStatus` calls on that key never supply None
(Pending) a task that has left Pending is never Pending again, and in a sequence with no
`recordStatus` call on that key the task keeps its status. A `recordStatus` call on a
positive key with a working storage stores the supplied status whatever the current one. -/
theorem status_changes_only_by_recordStatus (db : DB) (id : Int) (s : MessageTaskStatus)
    (h : statusOf db id = some s) :
    (∀ ops, ∃ s1, statusOf (run db ops) id = some s1 ∧
        (s1 = s ∨ ∃ now res, Op.recordStatus now id s1 res ∈ ops)) ∧
      (∀ ops, s ≠ MessageTaskStatusNone →
        (∀ now st res, Op.recordStatus now id st res ∈ ops → st ≠ MessageTaskStatusNone) →
        statusOf (run db ops) id ≠ some MessageTaskStatusNone) ∧
      (∀ ops, (∀ now st res, Op.recordStatus now id st res ∉ ops) →
        statusOf (run db ops) id = some s) ∧
      (0 < id → db.fault = none → ∀ now st res,
        statusOf (step db (Op.recordStatus now id st res)) id = some st) := by
  refine ⟨fun ops => statusOf_run ops h, ?_, ?_, ?_⟩
  · intro ops hs hops hc
    obtain ⟨s1, h1, hc1⟩ := statusOf_run ops h
    rw [h1] at hc
    have hs1 : s1 = MessageTaskStatusNone := Option.some.inj hc
    rcases hc1 with rfl | ⟨now, res, hmem⟩
    · exact hs hs1
    · exact hops now s1 res hmem hs1
  · intro ops hops
    obtain ⟨s1, h1, hc1⟩ := statusOf_run ops h
    rcases hc1 with rfl | ⟨now, res, hmem⟩
    · exact h1
    · exact absurd hmem (hops now s1 res)
  · intro hid hf now st res
    obtain ⟨t, ht, _⟩ := statusOf_eq_some.mp h
    have hw := findTask_update now st res hid hf id
    rw [ht] at hw
    apply statusOf_eq_some.mpr
    refine ⟨_, hw, ?_⟩
    simp [statusWrite, findTask_id ht]

theorem status_changes_only_by_recordStatus_witness :
    statusOf (run scenarioDB [.recordStatus 50 1 MessageTaskStatusSending [],
        .disable 1, .recordStatus 60 2 MessageTaskStatusFailed [120], .listPending 10,
        .enable 1]) 1 = some MessageTaskStatusSending :=
  (status_changes_only_by_recordStatus
    (run scenarioDB [.recordStatus 50 1 MessageTaskStatusSending []]) 1
    MessageTaskStatusSending (by decide)).2.2.1
    [.disable 1, .recordStatus 60 2 MessageTaskStatusFailed [120], .listPending 10, .enable 1]
    (by intro now st res hmem; simp at hmem)

/-- C6 (as stated, refuted): after create and `recordStatus(1, Success, "OK")` task 1 is
Succeeded; one further `recordStatus(1, None, "")` succeeds and task 1 is Pending again,
and `FindSendingMessageTasks` returns it once more. -/
theorem recordStatus_reopens_succeeded_task :
    statusOf (run emptyDB [.create 7 8 "u" "s" "b" true,
        .recordStatus 50 1 MessageTaskStatusSuccess [79, 75]]) 1
        = some MessageTaskStatusSuccess ∧
      (UpdateMessageTaskStatus (run emptyDB [.create 7 8 "u" "s" "b" true,
        .recordStatus 50 1 MessageTaskStatusSuccess [79, 75]]) 60 1 MessageTaskStatusNone []).2
        = none ∧
      statusOf (run emptyDB [.create 7 8 "u" "s" "b" true,
        .recordStatus 50 1 MessageTaskStatusSuccess [79, 75],
        .recordStatus 60 1 MessageTaskStatusNone []]) 1 = some MessageTaskStatusNone ∧
      (FindSendingMessageTasks (run emptyDB [.create 7 8 "u" "s" "b" true,
        .recordStatus 50 1 MessageTaskStatusSuccess [79, 75],
        .recordStatus 60 1 MessageTaskStatusNone []]) 10).1.map MessageTask.Id = [1] := by
  decide

/-! ## Reachable tables are well-formed -/

theorem WF_map_keepId {db : DB} (g : MessageTask → MessageTask) (hg : ∀ t, (g t).Id = t.Id)
    (h : db.WF) : DB.WF ⟨db.rows.map g, db.autoIncrement, db.fault⟩ := by
  obtain ⟨hu, hpos, hb⟩ := h
  have hmap : (db.rows.map g).map MessageTask.Id = db.rows.map MessageTask.Id := by
    rw [List.map_map]
    apply List.map_congr_left
    intro t _
    exact hg t
  refine ⟨?_, hpos, ?_⟩
  · unfold DB.uniqueIds at hu ⊢
    simp only [hmap]
    exact hu
  · intro t ht
    obtain ⟨t0, ht0, rfl⟩ := List.mem_map.mp ht
    rw [hg t0]
    exact hb t0 ht0

theorem emptyDB_WF : emptyDB.WF := by
  refine ⟨?_, by decide, ?_⟩
  · unfold DB.uniqueIds
    decide
  · intro t ht
    simp [emptyDB] at ht

theorem step_keeps_WF {db : DB} (op : Op) (h : db.WF) : (step db op).WF := by
  cases op with
  | create r i u s b p => exact create_keeps_WF r i u s b p h
  | enable pk =>
    cases hf : db.fault with
    | some e => simp only [step, EnableMessageTask, hf]; exact h
    | none =>
      simp only [step, EnableMessageTask, hf]
      have := WF_map_keepId
        (fun t => if t.Id = pk then { t with State := MessageTaskStateEnabled } else t)
        (fun t => by show (if t.Id = pk then _ else t).Id = t.Id; split <;> rfl) h
      rw [hf] at this
      exact this
  | disable pk =>
    cases hf : db.fault with
    | some e => simp only [step, DisableMessageTask, hf]; exact h
    | none =>
      simp only [step, DisableMessageTask, hf]
      have := WF_map_keepId
        (fun t => if t.Id = pk then { t with State := MessageTaskStateDisabled } else t)
        (fun t => by show (if t.Id = pk then _ else t).Id = t.Id; split <;> rfl) h
      rw [hf] at this
      exact this
  | listPending size => exact h
  | recordStatus now tid st res =>
    by_cases hid : tid ≤ 0
    · simp only [step, UpdateMessageTaskStatus, if_pos hid]
      exact h
    · cases hf : db.fault with
      | some e => simp only [step, update_of_fault now tid st res hf]; exact h
      | none =>
        simp only [step, update_of_ok now st res (not_le.mp hid) hf]
        exact WF_map_keepId _ (statusWrite_id now tid st res) h

theorem run_keeps_WF (ops : List Op) : ∀ {db : DB}, db.WF → (run db ops).WF := by
  induction ops with
  | nil => intro db h; exact h
  | cons op ops ih => intro db h; exact ih (step_keeps_WF op h)

/-- Every table built from the empty one by queue operations satisfies the primary-key
constraint the ordering theorems assume. -/
theorem reachable_uniqueIds (ops : List Op) : (run emptyDB ops).uniqueIds :=
  (run_keeps_WF ops emptyDB_WF).1

end EdgeAPI
